import Mathlib

/-!
Verification development for the tiered time-series aggregation and rollup
engine of the `demo_back` repository.

The Python sources are shallowly embedded as executable Lean definitions:

* `src/analytics/energy_service.py`
  - `_build_flux_query`            → `buildQueries` / `emittedQueries`
  - `_compute_hourly_daily`        → `deltaSeries`, `hourlyAt`, `dailyAt`
  - `_calculate_performance_scores`→ `scoreRow`
* `src/reporting/services/aggregation_service.py`
  - `_aggregate_device_daily`      → `aggDeviceDaily`, `updateOrCreateDaily`
  - `_aggregate_monthly_from_daily`→ `monthlyFromDaily`
* `src/reporting/services/benchmark_service.py`
  - `_calculate_best_day`          → `bestDay`
  - `_calculate_best_week`         → `bestWeek`
* `src/reporting/services/target_service.py`
  - `_calculate_on_track`          → `calcOnTrackEfficiency`

Python floats are modelled as `ℚ` (none of the verified properties depends on
rounding of binary floating point; where a claim allows a 1e-6 relative
tolerance the rational model gives exact equality).  A possibly-NaN float is
modelled as `Option ℚ` with `none` playing the role of NaN/null.  Timestamps
are integer seconds, dates integer day numbers.
-/

namespace DemoBack

/-! ### Counter-to-Delta Reducer (`_compute_hourly_daily`)

`df.groupby("device_id")["value"].diff().mask(lambda s: (s < 0) | (s.isna()))`
computes, within one device group (already time sorted), the consecutive
difference; the first row of the group gets null (no predecessor), and any
negative difference is masked to null.  A sample is a `(timestamp, value)`
pair; the delta series keeps the timestamps.
-/

/-- Consecutive differences against the previous value `vprev`; a negative
difference is emitted as `none` (masked), a non-negative one as `some`. -/
def deltaAux (vprev : ℚ) : List (ℕ × ℚ) → List (ℕ × Option ℚ)
  | [] => []
  | (t, v) :: rest =>
      (t, if v - vprev < 0 then none else some (v - vprev)) :: deltaAux v rest

/-- Per-device delta series of `_compute_hourly_daily`: the first sample of a
group has a null delta, later samples carry the masked consecutive
difference. -/
def deltaSeries : List (ℕ × ℚ) → List (ℕ × Option ℚ)
  | [] => []
  | (t0, v0) :: rest => (t0, none) :: deltaAux v0 rest

/-- Pandas `sum(min_count=1)`: null when no non-null value is present,
otherwise the sum of the non-null values. -/
def sumMinCount1 (xs : List (Option ℚ)) : Option ℚ :=
  let ys := xs.filterMap id
  if ys.isEmpty then none else some ys.sum

/-- `resample("1h").sum(min_count=1)`: the value of hour bucket `h`
(timestamps `[3600*h, 3600*(h+1))`) of a device's delta series. -/
def hourlyAt (ds : List (ℕ × Option ℚ)) (h : ℕ) : Option ℚ :=
  sumMinCount1 ((ds.filter (fun p => p.1 / 3600 = h)).map (·.2))

/-- Daily roll-up of the hourly frame: group the hour buckets by the date of
the bucket timestamp and `sum(min_count=1)` them.  Day `d` covers hour
buckets `24*d .. 24*d+23`. -/
def dailyAt (ds : List (ℕ × Option ℚ)) (d : ℕ) : Option ℚ :=
  sumMinCount1 ((List.range 24).map (fun k => hourlyAt ds (24 * d + k)))

/-! ### Tiered Query Builder (`_build_flux_query`)

Timestamps are integer seconds.  `now` is the reference time; the tier
cutoffs are `now − 5d`, `now − 35d`, `now − 215d`.  Each emitted sub-query is
`(tier, lo, hi)` and selects `lo ≤ t < hi` (a Flux `range(start:, stop:)` is
inclusive-exclusive).  The code appends the raw, 1-minute, 5-minute and
1-hour sub-queries in this order, falls back to one raw query over the whole
range when none was emitted, unions them and pipes the union through
`sort(columns: ["_time"])`.
-/

/-- The four resolution tiers of one logical series. -/
inductive Tier where
  | raw
  | oneM
  | fiveM
  | oneH
deriving DecidableEq, Repr

def cutoff5 (now : ℤ) : ℤ := now - 5 * 86400

def cutoff35 (now : ℤ) : ℤ := now - 35 * 86400

def cutoff215 (now : ℤ) : ℤ := now - 215 * 86400

/-- `if stop > cutoff_5d: raw_start = max(start, cutoff_5d); raw_stop =
min(stop, now); if raw_start < raw_stop: emit`. -/
def rawQuery (now start stop : ℤ) : List (Tier × ℤ × ℤ) :=
  if cutoff5 now < stop then
    let lo := max start (cutoff5 now)
    let hi := min stop now
    if lo < hi then [(Tier.raw, lo, hi)] else []
  else []

/-- `if start < cutoff_5d: ... max(start, cutoff_35d) .. min(stop, cutoff_5d)`. -/
def oneMQuery (now start stop : ℤ) : List (Tier × ℤ × ℤ) :=
  if start < cutoff5 now then
    let lo := max start (cutoff35 now)
    let hi := min stop (cutoff5 now)
    if lo < hi then [(Tier.oneM, lo, hi)] else []
  else []

/-- `if start < cutoff_35d: ... max(start, cutoff_215d) .. min(stop, cutoff_35d)`. -/
def fiveMQuery (now start stop : ℤ) : List (Tier × ℤ × ℤ) :=
  if start < cutoff35 now then
    let lo := max start (cutoff215 now)
    let hi := min stop (cutoff35 now)
    if lo < hi then [(Tier.fiveM, lo, hi)] else []
  else []

/-- `if start < cutoff_215d: emit start .. min(stop, cutoff_215d)` (the code
performs no extra emptiness check on this branch). -/
def oneHQuery (now start stop : ℤ) : List (Tier × ℤ × ℤ) :=
  if start < cutoff215 now then [(Tier.oneH, start, min stop (cutoff215 now))] else []

/-- The tier sub-queries in the order the code appends them. -/
def buildQueries (now start stop : ℤ) : List (Tier × ℤ × ℤ) :=
  rawQuery now start stop ++ oneMQuery now start stop ++
    fiveMQuery now start stop ++ oneHQuery now start stop

/-- The final emitted list: fall back to one raw query over the full range
when no tier sub-query was produced. -/
def emittedQueries (now start stop : ℤ) : List (Tier × ℤ × ℤ) :=
  let qs := buildQueries now start stop
  if qs.isEmpty then [(Tier.raw, start, stop)] else qs

/-- The validity window of each tier, measured from `now`: raw holds ages
0–5d, 1-minute 5–35d, 5-minute 35–215d, 1-hour older than 215d. -/
def inWindow (now : ℤ) : Tier → ℤ → Prop
  | Tier.raw, t => cutoff5 now ≤ t ∧ t < now
  | Tier.oneM, t => cutoff35 now ≤ t ∧ t < cutoff5 now
  | Tier.fiveM, t => cutoff215 now ≤ t ∧ t < cutoff35 now
  | Tier.oneH, t => t < cutoff215 now

instance (now : ℤ) (tr : Tier) (t : ℤ) : Decidable (inWindow now tr t) := by
  cases tr <;> simp only [inWindow] <;> infer_instance

/-- Whether a sub-query's range contains timestamp `t`. -/
def containsT (q : Tier × ℤ × ℤ) (t : ℤ) : Bool :=
  decide (q.2.1 ≤ t ∧ t < q.2.2)

/-- How many emitted sub-ranges contain timestamp `t`. -/
def countContaining (qs : List (Tier × ℤ × ℤ)) (t : ℤ) : ℕ :=
  qs.countP (containsT · t)

/-- Ordering of result rows by the `_time` column. -/
def timeLE (a b : ℤ × ℚ) : Prop := a.1 ≤ b.1

instance : DecidableRel timeLE := fun a b => by unfold timeLE; infer_instance

instance : IsTotal (ℤ × ℚ) timeLE := ⟨fun a b => Int.le_total a.1 b.1⟩

instance : IsTrans (ℤ × ℚ) timeLE := ⟨fun _ _ _ h1 h2 => le_trans h1 h2⟩

/-- Rows a sub-query returns, given the stored rows `data` of each tier. -/
def selectRows (data : Tier → List (ℤ × ℚ)) (q : Tier × ℤ × ℤ) : List (ℤ × ℚ) :=
  (data q.1).filter (fun p => containsT q p.1)

/-- `union(tables: [...]) |> sort(columns: ["_time"])`: concatenate every
sub-query's rows and sort the union by time (stably). -/
def evalQueries (data : Tier → List (ℤ × ℚ)) (qs : List (Tier × ℤ × ℤ)) : List (ℤ × ℚ) :=
  (qs.flatMap (selectRows data)).insertionSort timeLE

/-! ### Reporting daily aggregation (`_aggregate_device_daily`)

The InfluxQL response is parsed cell by cell; every non-null cell of a
non-time column is a `(field_name, value)` pair, modelled as `QRow`.  The
loop sums the three energy field names into `total_energy` and appends the
same values to `power_values`, and classifies every field name into the
component taxonomy by lower-cased substring matching.
-/

structure QRow where
  fieldName : String
  value : ℚ
deriving DecidableEq, Repr

def energyFieldNames : List String := ["total_energy", "total_active_power", "active_power_total"]

/-- Prefix test on character lists (all characters match pairwise). -/
def prefMatchL : List Char → List Char → Bool
  | [], _ => true
  | _ :: _, [] => false
  | a :: as, b :: bs => a == b && prefMatchL as bs

/-- Substring test on character lists (Python `pat in hay`). -/
def subMatchL (pat : List Char) : List Char → Bool
  | [] => prefMatchL pat []
  | b :: bs => prefMatchL pat (b :: bs) || subMatchL pat bs

/-- Python `pat in field_name.lower()`. -/
def strHas (hay pat : String) : Bool :=
  subMatchL pat.data (hay.toLower).data

/-- `_identify_component`: first matching substring pattern wins, unmatched
field names yield `None`. -/
def identifyComponent (fieldName : String) : Option String :=
  if strHas fieldName "light" then some "lights"
  else if strHas fieldName "machine" || strHas fieldName "motor" then some "machines"
  else if strHas fieldName "hvac" || strHas fieldName "cooling" || strHas fieldName "ac" then some "hvac"
  else if strHas fieldName "exhaust" || strHas fieldName "fan" then some "exhaust_fan"
  else if strHas fieldName "office" then some "office"
  else if strHas fieldName "laser" then some "laser"
  else none

/-- `cb[component] = cb.get(component, 0) + value` on an insertion-ordered
dictionary. -/
def addAmount : List (String × ℚ) → String → ℚ → List (String × ℚ)
  | [], k, v => [(k, v)]
  | (k', v') :: rest, k, v =>
      if k' = k then (k', v' + v) :: rest else (k', v') :: addAmount rest k v

/-- Total amount stored under key `k` (the dictionary value, or 0). -/
def amountOf (l : List (String × ℚ)) (k : String) : ℚ :=
  ((l.filter (fun p => p.1 == k)).map (·.2)).sum

/-- One parsed response cell: accumulate `total_energy`, `power_values` and
the component breakdown exactly as the row loop does. -/
def aggStep (acc : ℚ × List ℚ × List (String × ℚ)) (r : QRow) : ℚ × List ℚ × List (String × ℚ) :=
  let te := if energyFieldNames.contains r.fieldName then acc.1 + r.value else acc.1
  let pv := if energyFieldNames.contains r.fieldName then acc.2.1 ++ [r.value] else acc.2.1
  let cb := match identifyComponent r.fieldName with
    | some c => addAmount acc.2.2 c r.value
    | none => acc.2.2
  (te, pv, cb)

/-- The values of the three energy field names in response order (what the
loop both sums into `total_energy` and appends to `power_values`). -/
def energyVals (rows : List QRow) : List ℚ :=
  (rows.filter (fun r => energyFieldNames.contains r.fieldName)).map (·.value)

/-- The field values written into `DailyAggregate.objects.update_or_create`'s
`defaults` dictionary. -/
structure DVals where
  total_energy_kwh : ℚ
  avg_power_kw : ℚ
  peak_power_kw : ℚ
  component_breakdown : List (String × ℚ)
  units_produced : Option ℤ
  efficiency_kwh_per_unit : Option ℚ
  total_cost : ℚ
deriving DecidableEq, Repr

/-- `_aggregate_device_daily`'s computation of the defaults from the parsed
query rows and the day's `ProductionData.units_produced` (if any):
`avg_power = sum/len (or 0)`, `peak_power = max (or 0)`,
`efficiency = total/units` only when `units_produced` is truthy, `> 0` and
`total_energy > 0`, `total_cost = total_energy * 0.15`. -/
def aggDeviceDaily (rows : List QRow) (production : Option ℤ) : DVals :=
  let acc := rows.foldl aggStep (0, [], [])
  let te := acc.1
  let pv := acc.2.1
  let cb := acc.2.2
  let avgPower := if pv.isEmpty then 0 else pv.sum / pv.length
  let peakPower := match pv with
    | [] => 0
    | x :: xs => xs.foldl max x
  let eff : Option ℚ := match production with
    | some u => if 0 < u ∧ 0 < te then some (te / (u : ℚ)) else none
    | none => none
  { total_energy_kwh := te
    avg_power_kw := avgPower
    peak_power_kw := peakPower
    component_breakdown := cb
    units_produced := production
    efficiency_kwh_per_unit := eff
    total_cost := te * (3 / 20) }

/-- A stored `DailyAggregate` row.  `unique_together = [device, date,
is_overtime]` is the model's uniqueness invariant; `isOvertime` defaults to
`False` on creation. -/
structure DRow where
  deviceId : ℕ
  date : ℤ
  isOvertime : Bool
  vals : DVals
deriving DecidableEq, Repr

/-- `DailyAggregate.objects.update_or_create(device=..., date=...,
defaults=...)`: the lookup ignores `is_overtime`; zero matches appends a
fresh row (with the field default `is_overtime=False`), one match overwrites
its defaults, several matches raise `MultipleObjectsReturned` (`none`). -/
def updateOrCreateDaily (t : List DRow) (dev : ℕ) (dt : ℤ) (v : DVals) :
    Option (List DRow) :=
  match t.filter (fun r => r.deviceId == dev && r.date == dt) with
  | [] => some (t ++ [⟨dev, dt, false, v⟩])
  | [_] => some (t.map (fun r =>
      if r.deviceId == dev && r.date == dt then { r with vals := v } else r))
  | _ => none

/-! ### Monthly aggregation from daily aggregates
(`_aggregate_monthly_from_daily`) -/

/-- The field values written into `MonthlyAggregate`'s `defaults`. -/
structure MVals where
  total_energy_kwh : ℚ
  avg_daily_energy_kwh : ℚ
  peak_power_kw : ℚ
  component_breakdown : List (String × ℚ)
  total_units_produced : ℤ
  efficiency_kwh_per_unit : Option ℚ
  total_cost : ℚ
  data_completeness : ℚ
deriving DecidableEq, Repr

/-- Truthiness filter of `if agg.units_produced` (skips `None` and `0`). -/
def truthyUnits : Option ℤ → Option ℤ
  | some u => if u = 0 then none else some u
  | none => none

/-- `DailyAggregate.objects.filter(device=..., date__gte=month_start,
date__lte=month_end)`. -/
def monthAggs (table : List DRow) (dev : ℕ) (monthStart monthEnd : ℤ) : List DRow :=
  table.filter (fun r => r.deviceId == dev && monthStart ≤ r.date && r.date ≤ monthEnd)

/-- The `MonthlyAggregate` defaults computed by `_aggregate_monthly_from_daily`
from the month's daily rows: sums for energy/cost, `total/count` average, max
of daily peaks, key-wise merged breakdown, truthy-unit production sum,
efficiency only when both totals are positive, and
`data_completeness = count / days_in_month * 100`. -/
def monthlyVals (aggs : List DRow) (daysInMonth : ℤ) : MVals :=
  let total := (aggs.map (fun r => r.vals.total_energy_kwh)).sum
  let avgDaily := total / (aggs.length : ℚ)
  let peak := match aggs.map (fun r => r.vals.peak_power_kw) with
    | [] => 0
    | x :: xs => xs.foldl max x
  let breakdown := aggs.foldl
    (fun acc r => r.vals.component_breakdown.foldl (fun a p => addAmount a p.1 p.2) acc) []
  let totalUnits := (aggs.filterMap (fun r => truthyUnits r.vals.units_produced)).sum
  let eff : Option ℚ :=
    if 0 < totalUnits ∧ 0 < total then some (total / (totalUnits : ℚ)) else none
  let cost := (aggs.map (fun r => r.vals.total_cost)).sum
  { total_energy_kwh := total
    avg_daily_energy_kwh := avgDaily
    peak_power_kw := peak
    component_breakdown := breakdown
    total_units_produced := totalUnits
    efficiency_kwh_per_unit := eff
    total_cost := cost
    data_completeness := (aggs.length : ℚ) / (daysInMonth : ℚ) * 100 }

/-- `_aggregate_monthly_from_daily`: filter the daily table to the device and
the month's date range, return `None` when empty, otherwise aggregate the
rows.  `days_in_month = (month_end - month_start).days + 1`. -/
def monthlyFromDaily (table : List DRow) (dev : ℕ) (monthStart monthEnd : ℤ) :
    Option MVals :=
  let aggs := monthAggs table dev monthStart monthEnd
  if aggs.isEmpty then none
  else some (monthlyVals aggs (monthEnd - monthStart + 1))

/-! ### Benchmark Calculator (`_calculate_best_day`, `_calculate_best_week`)

Both filter `DailyAggregate` to the optional device, to
`today − daysBack ≤ date ≤ today`, and to rows with
`efficiency_kwh_per_unit` present and `> 0`.  `best_day` orders by
efficiency and takes the first row; on equal efficiencies the database order
is unspecified, modelled here as a stable sort over storage order.
`best_week` reads `(date, efficiency)` pairs in the model's default queryset
order, which Django takes from `DailyAggregate.Meta.ordering = ['-date']`
(date descending), and slides a window of 7 consecutive *rows*. -/

def effKey (r : DRow) : ℚ := (r.vals.efficiency_kwh_per_unit).getD 0

def qualifies (dev : Option ℕ) (startD endD : ℤ) (r : DRow) : Bool :=
  (match dev with
    | some d => r.deviceId == d
    | none => true) &&
  startD ≤ r.date && r.date ≤ endD &&
  (match r.vals.efficiency_kwh_per_unit with
    | some e => decide (0 < e)
    | none => false)

/-- `_calculate_best_day`: `(benchmark_value, period_start, period_end,
days_used)` or `None`. -/
def bestDay (table : List DRow) (dev : Option ℕ) (startD endD : ℤ) :
    Option (ℚ × ℤ × ℤ × ℕ) :=
  let q := table.filter (qualifies dev startD endD)
  if q.isEmpty then none
  else
    ((q.insertionSort (fun a b => effKey a ≤ effKey b)).head?).map
      (fun r => (effKey r, r.date, r.date, q.length))

/-- The first element attaining the minimal key (how a stable sort breaks
ties: the storage-order-first minimum ends up in front). -/
def leftmostMin {α : Type} (key : α → ℚ) : List α → Option α
  | [] => none
  | x :: xs =>
      match leftmostMin key xs with
      | none => some x
      | some m => if key x ≤ key m then some x else some m

/-- Python `min(l, key=f)`: the first element attaining the minimal key. -/
def minByFst (w : ℚ × ℤ × ℤ) (ws : List (ℚ × ℤ × ℤ)) : ℚ × ℤ × ℤ :=
  ws.foldl (fun m y => if y.1 < m.1 then y else m) w

/-- The 7-row sliding windows of `_calculate_best_week`: for each
`i < len − 6`, `(average of rows i..i+6, first row's date, last row's date)`. -/
def weekWindows (daily : List (ℤ × ℚ)) : List (ℚ × ℤ × ℤ) :=
  (List.range (daily.length - 6)).map (fun i =>
    let wd := (daily.drop i).take 7
    (((wd.map (·.2)).sum) / (wd.length : ℚ),
      ((wd.head?).map (·.1)).getD 0,
      ((wd.getLast?).map (·.1)).getD 0))

/-- The `(date, efficiency)` pairs the best-week queryset yields: Django's
default `Meta.ordering = ['-date']` delivers the qualifying rows
date-descending (stable over storage order). -/
def dailyDesc (table : List DRow) (dev : Option ℕ) (startD endD : ℤ) : List (ℤ × ℚ) :=
  ((table.filter (qualifies dev startD endD)).insertionSort (fun a b => b.date ≤ a.date)).map
    (fun r => (r.date, effKey r))

/-- `_calculate_best_week`: `(benchmark_value, period_start, period_end)` or
`None`. -/
def bestWeek (table : List DRow) (dev : Option ℕ) (startD endD : ℤ) :
    Option (ℚ × ℤ × ℤ) :=
  let q := table.filter (qualifies dev startD endD)
  if q.isEmpty then none
  else
    match weekWindows (dailyDesc table dev startD endD) with
    | [] => none
    | w :: ws => some (minByFst w ws)

/-! ### Target Tracker (`_calculate_on_track`, efficiency branch)

`recentEff` is the list of `efficiency_kwh_per_unit` values of the last
7 days' qualifying `DailyAggregate` rows.  The code runs
`values = sorted([...])` and then `trend_improving = values[-1] < values[0]`.
-/

def calcOnTrackEfficiency (periodStart periodEnd today : ℤ)
    (targetValue currentValue : ℚ) (recentEff : List ℚ) : Bool :=
  let periodDays := (periodEnd - periodStart) + 1
  let daysElapsed := (min today periodEnd) - periodStart + 1
  let daysRemaining := periodDays - daysElapsed
  if daysRemaining ≤ 0 then decide (currentValue ≤ targetValue)
  else if currentValue ≤ targetValue then true
  else if 3 ≤ recentEff.length then
    let values := recentEff.insertionSort (· ≤ ·)
    let trendImproving := match values.getLast?, values.head? with
      | some l, some h => decide (l < h)
      | _, _ => false
    trendImproving && decide (currentValue ≤ targetValue * (11 / 10))
  else false

/-! ### Performance scores (`_calculate_performance_scores`)

A possibly-NaN float is `Option ℚ` with `none` for NaN.  `max(0.0, x)`
returns `0.0` when `x` is NaN (NaN comparisons are false), hence `pymax0`.
`latest_kwh = row.kwh or math.nan` turns a zero into NaN.  Python
`round(x, 2)` is modelled with Mathlib's `round` (the tie-breaking direction
differs from float banker's rounding; the verified range bounds are
unaffected). -/

def pymax0 : Option ℚ → ℚ
  | none => 0
  | some v => max 0 v

def rsub : Option ℚ → Option ℚ → Option ℚ
  | some a, some b => some (a - b)
  | _, _ => none

def round2 (x : ℚ) : ℚ := ((round (x * 100) : ℤ) : ℚ) / 100

/-- The `elif previous_kwh and previous_kwh > 0` branch (else 50.0). -/
def consumptionFromPrev (latest prev : Option ℚ) : ℚ :=
  match prev with
  | some p =>
      if 0 < p then pymax0 ((rsub latest (some p)).map (fun d => 100 - |d / p * 100|))
      else 50
  | none => 50

/-- Consumption score: the `if target_kwh:` branch compares to the target
(0.0 and `None` targets are falsy), otherwise to the previous day. -/
def consumptionScore (target latest prev : Option ℚ) : ℚ :=
  match target with
  | some t =>
      if t = 0 then consumptionFromPrev latest prev
      else pymax0 ((rsub latest (some t)).map (fun d => 100 - |d| / max t 1 * 100))
  | none => consumptionFromPrev latest prev

/-- Power-quality proxy: population variance of the device's non-null hourly
values on the device's latest date; 50.0 when the device has no hourly rows
or no non-null value on that date. -/
def qualityScore (rows : List (ℤ × Option ℚ)) : ℚ :=
  match rows with
  | [] => 50
  | r0 :: rest =>
      let latestDate := (rest.map (·.1)).foldl max r0.1
      let latestVals := (rows.filter (fun p => p.1 == latestDate)).filterMap (·.2)
      if latestVals.isEmpty then 50
      else
        let n : ℚ := latestVals.length
        let m := latestVals.sum / n
        let variance := ((latestVals.map (fun x => (x - m) ^ 2)).sum) / n
        max 0 (100 - min (variance * 20) 100)

/-- The non-null hourly values of the device's latest date (empty also when
the device has no hourly rows at all). -/
def latestDayVals (rows : List (ℤ × Option ℚ)) : List ℚ :=
  match rows with
  | [] => []
  | r0 :: rest =>
      let latestDate := (rest.map (·.1)).foldl max r0.1
      (rows.filter (fun p => p.1 == latestDate)).filterMap (·.2)

/-- One device's `(consumption_score, power_quality_score, overall_score)`
as produced by `_calculate_performance_scores`.  `latest` and `prev` are the
summary row's `kwh` and `previous_day_kwh` (`none` = NaN); `rows` are the
device's hourly `(date, kwh)` rows. -/
def scoreRow (target latest prev : Option ℚ) (rows : List (ℤ × Option ℚ)) :
    ℚ × ℚ × ℚ :=
  let latestK : Option ℚ := match latest with
    | none => none
    | some q => if q = 0 then none else some q
  let c := consumptionScore target latestK prev
  let q := qualityScore rows
  let o := min 100 (max 0 (c * (3 / 5) + q * (2 / 5)))
  (round2 c, round2 q, round2 o)

/-! ## Theorems -/

theorem deltaAux_entry_nonneg (vprev : ℚ) (l : List (ℕ × ℚ)) :
    ∀ p ∈ deltaAux vprev l, ∀ q : ℚ, p.2 = some q → 0 ≤ q := by
  induction l generalizing vprev with
  | nil => intro p hp; simp [deltaAux] at hp
  | cons a rest ih =>
      intro p hp q hq
      obtain ⟨t, v⟩ := a
      simp only [deltaAux, List.mem_cons] at hp
      rcases hp with h | h
      · subst h
        simp only at hq
        split at hq
        · exact absurd hq (by simp)
        · rename_i hneg
          rw [Option.some_inj] at hq
          subst hq
          linarith [not_lt.mp hneg]
      · exact ih v p h q hq

theorem deltaSeries_entry_nonneg (samples : List (ℕ × ℚ)) :
    ∀ p ∈ deltaSeries samples, ∀ q : ℚ, p.2 = some q → 0 ≤ q := by
  cases samples with
  | nil => intro p hp; simp [deltaSeries] at hp
  | cons a rest =>
      intro p hp q hq
      obtain ⟨t0, v0⟩ := a
      simp only [deltaSeries, List.mem_cons] at hp
      rcases hp with h | h
      · subst h; exact absurd hq (by simp)
      · exact deltaAux_entry_nonneg v0 rest p h q hq

theorem deltaAux_eq_zip (l : List (ℕ × ℚ)) (tp : ℕ) (vp : ℚ) :
    deltaAux vp l = (((tp, vp) :: l).zip l).map (fun pq =>
      (pq.2.1, if pq.2.2 - pq.1.2 < 0 then none else some (pq.2.2 - pq.1.2))) := by
  induction l generalizing tp vp with
  | nil => simp [deltaAux]
  | cons a rest ih =>
      obtain ⟨t, v⟩ := a
      simp only [deltaAux, List.zip_cons_cons, List.map_cons, List.cons.injEq, true_and]
      exact ih t v

theorem sumMinCount1_eq_none {xs : List (Option ℚ)} :
    sumMinCount1 xs = none ↔ ∀ x ∈ xs, x = none := by
  simp only [sumMinCount1]
  split <;> rename_i hempty
  · simp only [List.isEmpty_iff] at hempty
    constructor
    · intro _ x hx
      cases hxv : x with
      | none => rfl
      | some v =>
          exfalso
          have : v ∈ xs.filterMap id := List.mem_filterMap.mpr ⟨x, hx, by simp [hxv]⟩
          simp [hempty] at this
    · intro _; rfl
  · simp only [List.isEmpty_iff] at hempty
    constructor
    · intro h; exact absurd h (by simp)
    · intro hall
      exfalso
      apply hempty
      rw [List.filterMap_eq_nil_iff]
      intro a ha
      simp [hall a ha]


theorem hourlyAt_eq_none {ds : List (ℕ × Option ℚ)} {h : ℕ} :
    hourlyAt ds h = none ↔ ∀ p ∈ ds, p.1 / 3600 = h → p.2 = none := by
  rw [hourlyAt, sumMinCount1_eq_none]
  constructor
  · intro H p hp hdiv
    exact H p.2 (List.mem_map.mpr ⟨p, List.mem_filter.mpr ⟨hp, by simpa using hdiv⟩, rfl⟩)
  · intro H x hx
    obtain ⟨p, hpmem, rfl⟩ := List.mem_map.mp hx
    obtain ⟨hp, hdiv⟩ := List.mem_filter.mp hpmem
    exact H p hp (by simpa using hdiv)

theorem dailyAt_eq_none {ds : List (ℕ × Option ℚ)} {d : ℕ} :
    dailyAt ds d = none ↔ ∀ p ∈ ds, p.1 / 86400 = d → p.2 = none := by
  rw [dailyAt, sumMinCount1_eq_none]
  constructor
  · intro H p hp hday
    have hdd : p.1 / 3600 / 24 = d := by
      rw [Nat.div_div_eq_div_mul]; norm_num; exact hday
    have hk : p.1 / 3600 = 24 * d + (p.1 / 3600 - 24 * d) ∧ p.1 / 3600 - 24 * d < 24 := by
      omega
    have hmem : hourlyAt ds (24 * d + (p.1 / 3600 - 24 * d)) ∈
        (List.range 24).map (fun k => hourlyAt ds (24 * d + k)) :=
      List.mem_map.mpr ⟨p.1 / 3600 - 24 * d, List.mem_range.mpr hk.2, rfl⟩
    have hnone := H _ hmem
    exact hourlyAt_eq_none.mp hnone p hp hk.1
  · intro H x hx
    obtain ⟨k, hkmem, rfl⟩ := List.mem_map.mp hx
    have hk24 := List.mem_range.mp hkmem
    apply hourlyAt_eq_none.mpr
    intro p hp hdiv
    apply H p hp
    rw [show (86400 : ℕ) = 3600 * 24 by norm_num, ← Nat.div_div_eq_div_mul, hdiv]
    omega

theorem sumMinCount1_eq_some {xs : List (Option ℚ)} {q : ℚ} :
    sumMinCount1 xs = some q → q = (xs.filterMap id).sum := by
  simp only [sumMinCount1]
  split
  · intro h; exact absurd h (by simp)
  · intro h; exact (Option.some_inj.mp h).symm

/-- **C1** — The Counter-to-Delta Reducer emits no negative delta.  For any
device group of counter samples: (i) every non-null entry of the delta series
is non-negative; (ii) the first sample's entry is null (it contributes no
delta); (iii) the series pairs each later sample with its predecessor and
emits null exactly when the consecutive difference is negative (counter
reset/rollover/re-zero), and the difference itself otherwise; (iv) hence
every non-null 1-hour resampled bucket is non-negative as well. -/
theorem claim1_delta_reducer_no_negative (samples : List (ℕ × ℚ)) :
    (∀ p ∈ deltaSeries samples, ∀ q : ℚ, p.2 = some q → 0 ≤ q) ∧
    ((deltaSeries samples).head? = samples.head?.map (fun p => (p.1, (none : Option ℚ)))) ∧
    (∀ t0 v0 rest, samples = (t0, v0) :: rest →
      deltaSeries samples = (t0, none) ::
        (samples.zip rest).map (fun pq =>
          (pq.2.1, if pq.2.2 - pq.1.2 < 0 then none else some (pq.2.2 - pq.1.2)))) ∧
    (∀ h : ℕ, ∀ q : ℚ, hourlyAt (deltaSeries samples) h = some q → 0 ≤ q) := by
  refine ⟨deltaSeries_entry_nonneg samples, ?_, ?_, ?_⟩
  · cases samples with
    | nil => rfl
    | cons a rest => obtain ⟨t0, v0⟩ := a; rfl
  · intro t0 v0 rest hs
    subst hs
    simp only [deltaSeries, List.cons.injEq, true_and]
    exact deltaAux_eq_zip rest t0 v0
  · intro h q hq
    rw [sumMinCount1_eq_some hq]
    apply List.sum_nonneg
    intro x hx
    obtain ⟨o, ho, hoe⟩ := List.mem_filterMap.mp hx
    obtain ⟨p, hpmem, rfl⟩ := List.mem_map.mp ho
    exact deltaSeries_entry_nonneg samples p (List.mem_filter.mp hpmem).1 x hoe

/-- Witness for C1 at a concrete series containing a counter reset
(100 → 90): the reset interval is null and the kept deltas are the
non-negative consecutive differences. -/
theorem claim1_witness :
    deltaSeries [(0, 100), (3600, 90), (7200, 95)] =
      [(0, none), (3600, none), (7200, some 5)] ∧ (0 : ℚ) ≤ 5 := by
  constructor
  · have h := (claim1_delta_reducer_no_negative [(0, 100), (3600, 90), (7200, 95)]).2.2.1
      0 100 [(3600, 90), (7200, 95)] rfl
    rw [h]; norm_num
  · have h := (claim1_delta_reducer_no_negative [(0, 100), (3600, 90), (7200, 95)]).1
      (7200, some 5) (by norm_num [deltaSeries, deltaAux]) 5 rfl
    exact h

/-- **C6** — The on-track determination for efficiency targets
(`_calculate_on_track`).  The boundary examples of the spec hold
(`current=50` vs `target=50` mid-period is on track; `current=56` with a
flat 7-day trend is not), but the claimed trend rescue can never fire: the
code sorts the last-7-days values (`values = sorted([...])`) before
comparing `values[-1] < values[0]`, which is false for every sorted list, so
an actually improving trend (most recent day 8 better than 7-days-ago 10)
with `current=52 ≤ 1.1 × 50` is still reported as not on track — contradicting
the code's own comment `# Latest is better than oldest`. -/
theorem claim6_on_track_trend_bug :
    calcOnTrackEfficiency 1 30 15 50 50 [] = true ∧
    calcOnTrackEfficiency 1 30 15 50 56 [56, 56, 56] = false ∧
    calcOnTrackEfficiency 1 30 15 50 52 [10, 9, 8] = false := by
  refine ⟨by decide, by decide, by decide⟩

theorem map_upd_of_filter_nil {dev : ℕ} {dt : ℤ} {v : DVals} {t : List DRow}
    (h : t.filter (fun r => r.deviceId == dev && r.date == dt) = []) :
    t.map (fun r => if r.deviceId == dev && r.date == dt then { r with vals := v } else r) = t := by
  induction t with
  | nil => rfl
  | cons a rest ih =>
      rw [List.filter_cons] at h
      split at h
      · exact absurd h (by simp)
      · rename_i hp
        rw [List.map_cons, ih h, if_neg (by simpa using hp)]

theorem pred_upd (dev : ℕ) (dt : ℤ) (v : DVals) (r : DRow) :
    (((if r.deviceId == dev && r.date == dt then { r with vals := v } else r).deviceId == dev &&
      (if r.deviceId == dev && r.date == dt then { r with vals := v } else r).date == dt)) =
    (r.deviceId == dev && r.date == dt) := by
  by_cases hp : (r.deviceId == dev && r.date == dt) = true
  · simp [hp]
  · simp only [Bool.not_eq_true] at hp
    simp [hp]

theorem upd_idem (dev : ℕ) (dt : ℤ) (v : DVals) (r : DRow) :
    (fun r : DRow => if r.deviceId == dev && r.date == dt then { r with vals := v } else r)
      ((fun r : DRow => if r.deviceId == dev && r.date == dt then { r with vals := v } else r) r) =
    (fun r : DRow => if r.deviceId == dev && r.date == dt then { r with vals := v } else r) r := by
  by_cases hp : (r.deviceId == dev && r.date == dt) = true
  · simp [hp]
  · simp only [Bool.not_eq_true] at hp
    simp [hp]

/-- **C5** — Daily aggregation upserts idempotently.  For any stored table in
which at most one row matches the `(device, date)` lookup (in particular any
table satisfying the uniqueness constraint that was only ever written by this
service), `update_or_create(device, date, defaults)` succeeds; rerunning it
with the same computed defaults (unchanged source data) returns the very same
table, the table holds exactly one matching row, at most one row was added,
and the `(device, date, is_overtime)` uniqueness invariant is preserved. -/
theorem claim5_idempotent_upsert (t : List DRow) (dev : ℕ) (dt : ℤ) (v : DVals)
    (h1 : (t.filter (fun r => r.deviceId == dev && r.date == dt)).length ≤ 1) :
    ∃ t1, updateOrCreateDaily t dev dt v = some t1 ∧
      updateOrCreateDaily t1 dev dt v = some t1 ∧
      (t1.filter (fun r => r.deviceId == dev && r.date == dt)).length = 1 ∧
      t1.length ≤ t.length + 1 ∧
      (List.Pairwise (fun a b : DRow =>
          (a.deviceId, a.date, a.isOvertime) ≠ (b.deviceId, b.date, b.isOvertime)) t →
        List.Pairwise (fun a b : DRow =>
          (a.deviceId, a.date, a.isOvertime) ≠ (b.deviceId, b.date, b.isOvertime)) t1) := by
  cases hf : t.filter (fun r => r.deviceId == dev && r.date == dt) with
  | nil =>
      have hnr : ((⟨dev, dt, false, v⟩ : DRow).deviceId == dev &&
          (⟨dev, dt, false, v⟩ : DRow).date == dt) = true := by simp
      have hfilt1 : (t ++ [(⟨dev, dt, false, v⟩ : DRow)]).filter
          (fun r => r.deviceId == dev && r.date == dt) = [⟨dev, dt, false, v⟩] := by
        rw [List.filter_append, hf, List.filter_cons, if_pos hnr]
        simp
      refine ⟨t ++ [⟨dev, dt, false, v⟩], ?_, ?_, ?_, ?_, ?_⟩
      · simp only [updateOrCreateDaily, hf]
      · simp only [updateOrCreateDaily, hfilt1]
        rw [List.map_append, map_upd_of_filter_nil hf]
        simp only [List.map_cons, List.map_nil, if_pos hnr]
      · simp [hfilt1]
      · simp
      · intro hpw
        rw [List.pairwise_append]
        refine ⟨hpw, List.pairwise_singleton _ _, ?_⟩
        intro a ha b hb
        rw [List.mem_singleton] at hb
        subst hb
        have hnotp := List.filter_eq_nil_iff.mp hf a ha
        simp only [Bool.and_eq_true, beq_iff_eq, not_and] at hnotp
        intro hkey
        have h1' : a.deviceId = dev := congrArg (fun p => p.1) hkey
        have h2' : a.date = dt := congrArg (fun p => p.2.1) hkey
        exact absurd h2' (hnotp h1')
  | cons r0 tail =>
      cases tail with
      | nil =>
          have hfp : (t.map (fun r => if r.deviceId == dev && r.date == dt
                then { r with vals := v } else r)).filter
              (fun r => r.deviceId == dev && r.date == dt) =
              (t.filter (fun r => r.deviceId == dev && r.date == dt)).map
              (fun r => if r.deviceId == dev && r.date == dt then { r with vals := v } else r) := by
            rw [List.filter_map]
            exact congrArg _ (List.filter_congr (fun r _ => pred_upd dev dt v r))
          refine ⟨t.map (fun r => if r.deviceId == dev && r.date == dt
              then { r with vals := v } else r), ?_, ?_, ?_, ?_, ?_⟩
          · simp only [updateOrCreateDaily, hf]
          · simp only [updateOrCreateDaily, hfp, hf, List.map_cons, List.map_nil]
            rw [List.map_map]
            exact congrArg some (List.map_congr_left (fun r _ => upd_idem dev dt v r))
          · rw [hfp, hf]; rfl
          · simp
          · intro hpw
            rw [List.pairwise_map]
            refine hpw.imp ?_
            intro a b hab
            by_cases hpa : (a.deviceId == dev && a.date == dt) = true <;>
              by_cases hpb : (b.deviceId == dev && b.date == dt) = true <;>
              simp only [Bool.not_eq_true] at hpa hpb <;>
              simpa [hpa, hpb] using hab
      | cons r1 tail2 =>
          exfalso
          rw [hf] at h1
          simp at h1

/-- Witness for C5: upserting the zero aggregate into an empty table and
rerunning it leaves a single, uniquely keyed row unchanged. -/
theorem claim5_witness : ∃ t1,
    updateOrCreateDaily [] 1 0 (aggDeviceDaily [] none) = some t1 ∧
    updateOrCreateDaily t1 1 0 (aggDeviceDaily [] none) = some t1 ∧
    (t1.filter (fun r => r.deviceId == 1 && r.date == 0)).length = 1 ∧
    t1.length ≤ ([] : List DRow).length + 1 ∧
    (List.Pairwise (fun a b : DRow =>
        (a.deviceId, a.date, a.isOvertime) ≠ (b.deviceId, b.date, b.isOvertime)) [] →
      List.Pairwise (fun a b : DRow =>
        (a.deviceId, a.date, a.isOvertime) ≠ (b.deviceId, b.date, b.isOvertime)) t1) :=
  claim5_idempotent_upsert [] 1 0 (aggDeviceDaily [] none) (by simp)

/-- **C2 (amended)** — Null versus zero.  In the delta reducer an hourly
bucket (and likewise a daily total) is null exactly when it contains no
non-null delta, and a non-null bucket is the sum of its non-null deltas.
However, a device-day whose query returns no rows does *not* end up without a
`DailyAggregate`: `_aggregate_device_daily` still computes zero totals and
upserts a row with `total_energy_kwh = 0`. -/
theorem claim2_null_vs_zero (ds : List (ℕ × Option ℚ)) (h d : ℕ) (dev : ℕ) (dt : ℤ) :
    (hourlyAt ds h = none ↔ ∀ p ∈ ds, p.1 / 3600 = h → p.2 = none) ∧
    (dailyAt ds d = none ↔ ∀ p ∈ ds, p.1 / 86400 = d → p.2 = none) ∧
    (∀ q : ℚ, hourlyAt ds h = some q →
      q = (((ds.filter (fun p => p.1 / 3600 = h)).map (·.2)).filterMap id).sum) ∧
    (updateOrCreateDaily [] dev dt (aggDeviceDaily [] none) =
        some [⟨dev, dt, false, aggDeviceDaily [] none⟩] ∧
      (aggDeviceDaily [] none).total_energy_kwh = 0) := by
  refine ⟨hourlyAt_eq_none, dailyAt_eq_none, ?_, rfl, rfl⟩
  intro q hq
  rw [hourlyAt] at hq
  exact sumMinCount1_eq_some hq

/-- Counterexample to C2 as stated: a device-day with no data (empty query
result) still yields a stored `DailyAggregate` row — with
`total_energy_kwh = 0` — instead of no row. -/
theorem claim2_counterexample :
    ∃ t1, updateOrCreateDaily [] 2 0 (aggDeviceDaily [] none) = some t1 ∧
      ∃ r ∈ t1, r.deviceId = 2 ∧ r.date = 0 ∧ r.vals.total_energy_kwh = 0 := by
  refine ⟨[⟨2, 0, false, aggDeviceDaily [] none⟩], rfl,
    ⟨2, 0, false, aggDeviceDaily [] none⟩, by simp, rfl, rfl, rfl⟩

/-- Witness for C2 on the spec's scenario: daily deltas 10, 12 and
missing for three consecutive days give daily values `some 10`, `some 12`
and null. -/
theorem claim2_witness :
    dailyAt [(0, some 10), (86400, some 12), (172800, none)] 2 = none ∧
    dailyAt [(0, some 10), (86400, some 12), (172800, none)] 0 = some 10 ∧
    dailyAt [(0, some 10), (86400, some 12), (172800, none)] 1 = some 12 :=
  ⟨(claim2_null_vs_zero [(0, some 10), (86400, some 12), (172800, none)] 0 2 1 0).2.1.mpr
      (by decide),
    by norm_num [dailyAt, hourlyAt, sumMinCount1, List.range, List.range.loop,
      List.filter, List.filterMap],
    by norm_num [dailyAt, hourlyAt, sumMinCount1, List.range, List.range.loop,
      List.filter, List.filterMap]⟩

theorem aggFold_fst (rows : List QRow) (acc : ℚ × List ℚ × List (String × ℚ)) :
    (rows.foldl aggStep acc).1 = acc.1 + (energyVals rows).sum := by
  induction rows generalizing acc with
  | nil => simp [energyVals]
  | cons r rest ih =>
      rw [List.foldl_cons, ih]
      by_cases hc : energyFieldNames.contains r.fieldName = true
      · simp only [aggStep, hc, if_pos, energyVals, List.filter_cons, List.map_cons,
          List.sum_cons]
        ring
      · simp only [Bool.not_eq_true] at hc
        simp only [aggStep, hc, energyVals, List.filter_cons, Bool.false_eq_true, if_false]

theorem aggFold_pv (rows : List QRow) (acc : ℚ × List ℚ × List (String × ℚ)) :
    (rows.foldl aggStep acc).2.1 = acc.2.1 ++ energyVals rows := by
  induction rows generalizing acc with
  | nil => simp [energyVals]
  | cons r rest ih =>
      rw [List.foldl_cons, ih]
      by_cases hc : energyFieldNames.contains r.fieldName = true
      · simp only [aggStep, hc, if_pos, energyVals, List.filter_cons, List.map_cons,
          List.append_assoc, List.singleton_append]
      · simp only [Bool.not_eq_true] at hc
        simp only [aggStep, hc, energyVals, List.filter_cons, Bool.false_eq_true, if_false]

theorem foldl_max_mem (x : ℚ) (xs : List ℚ) : xs.foldl max x ∈ x :: xs := by
  induction xs generalizing x with
  | nil => simp
  | cons y ys ih =>
      rw [List.foldl_cons]
      rcases List.mem_cons.mp (ih (max x y)) with h | h
      · rw [h]
        rcases max_choice x y with hm | hm <;> rw [hm] <;> simp
      · simp [List.mem_cons_of_mem, h]

theorem le_foldl_max (x : ℚ) (xs : List ℚ) : ∀ v ∈ x :: xs, v ≤ xs.foldl max x := by
  induction xs generalizing x with
  | nil => intro v hv; rw [List.mem_singleton] at hv; simp [hv]
  | cons y ys ih =>
      intro v hv
      rw [List.foldl_cons]
      rcases List.mem_cons.mp hv with rfl | hv'
      · exact le_trans (le_max_left v y) (ih (max v y) _ (List.mem_cons_self _ _))
      · rcases List.mem_cons.mp hv' with rfl | hv''

        · exact le_trans (le_max_right x v) (ih _ _ (List.mem_cons_self _ _))
        · exact ih (max x y) v (List.mem_cons_of_mem _ hv'')

/-- **C9 (amended)** — What `_aggregate_device_daily` actually stores:
`total_energy_kwh` is the plain sum of the energy-field values returned by
the day's query (no hourly deltas are computed in this service),
`avg_power_kw` is that same sum divided by the number of such values (0 when
there are none) — not total/24 — and `peak_power_kw` is the maximum of those
same summed values (0 when none), i.e. the same signal as the energy sum,
not a separate instantaneous-power series; `total_cost` is the sum times the
0.15 tariff. -/
theorem claim9_amended (rows : List QRow) (production : Option ℤ) :
    (aggDeviceDaily rows production).total_energy_kwh = (energyVals rows).sum ∧
    (aggDeviceDaily rows production).avg_power_kw =
      (if energyVals rows = [] then 0
        else (energyVals rows).sum / ((energyVals rows).length : ℚ)) ∧
    (energyVals rows = [] → (aggDeviceDaily rows production).peak_power_kw = 0) ∧
    (energyVals rows ≠ [] →
      (aggDeviceDaily rows production).peak_power_kw ∈ energyVals rows ∧
      ∀ v ∈ energyVals rows, v ≤ (aggDeviceDaily rows production).peak_power_kw) ∧
    (aggDeviceDaily rows production).total_cost = (energyVals rows).sum * (3 / 20) := by
  have hte := aggFold_fst rows (0, [], [])
  have hpv := aggFold_pv rows (0, [], [])
  simp only [zero_add] at hte
  simp only [List.nil_append] at hpv
  simp only [aggDeviceDaily, hte, hpv]
  refine ⟨trivial, ?_, ?_, ?_, trivial⟩
  · by_cases he : energyVals rows = []
    · simp [he]
    · simp [he, List.isEmpty_iff]
  · intro he; simp [he]
  · intro he
    cases hev : energyVals rows with
    | nil => exact absurd hev he
    | cons v vs =>
        simp only
        exact ⟨foldl_max_mem v vs, le_foldl_max v vs⟩

/-- Counterexample to C9 as stated: two energy samples 10 and 20 give
`total_energy_kwh = 30` but `avg_power_kw = 15 ≠ 30/24`, and the peak 20 is
just the largest of the very values whose sum is the total. -/
theorem claim9_counterexample :
    (aggDeviceDaily [⟨"total_energy", 10⟩, ⟨"total_energy", 20⟩] none).total_energy_kwh = 30 ∧
    (aggDeviceDaily [⟨"total_energy", 10⟩, ⟨"total_energy", 20⟩] none).peak_power_kw = 20 ∧
    (aggDeviceDaily [⟨"total_energy", 10⟩, ⟨"total_energy", 20⟩] none).avg_power_kw = 15 ∧
    (aggDeviceDaily [⟨"total_energy", 10⟩, ⟨"total_energy", 20⟩] none).avg_power_kw ≠
      (aggDeviceDaily [⟨"total_energy", 10⟩, ⟨"total_energy", 20⟩] none).total_energy_kwh / 24 := by
  norm_num [aggDeviceDaily, aggStep, energyFieldNames, identifyComponent, strHas,
    subMatchL, prefMatchL]

/-- Witness for C9 at one `active_power_total` sample. -/
theorem claim9_witness :
    (aggDeviceDaily [⟨"active_power_total", 7⟩] none).total_energy_kwh =
      (energyVals [⟨"active_power_total", 7⟩]).sum ∧
    (aggDeviceDaily [⟨"active_power_total", 7⟩] none).peak_power_kw ∈
      energyVals [⟨"active_power_total", 7⟩] := by
  obtain ⟨h1, _, _, h4, _⟩ := claim9_amended [⟨"active_power_total", 7⟩] none
  exact ⟨h1, (h4 (by decide)).1⟩

theorem amountOf_cons (a : String) (b : ℚ) (l : List (String × ℚ)) (k : String) :
    amountOf ((a, b) :: l) k = (if a = k then b else 0) + amountOf l k := by
  by_cases h : a = k <;> simp [amountOf, List.filter_cons, h]

theorem amountOf_addAmount (acc : List (String × ℚ)) (k : String) (v : ℚ) (k' : String) :
    amountOf (addAmount acc k v) k' = amountOf acc k' + (if k = k' then v else 0) := by
  induction acc with
  | nil =>
      by_cases h : k = k' <;> simp [addAmount, amountOf, List.filter_cons, h]
  | cons p rest ih =>
      obtain ⟨k0, v0⟩ := p
      by_cases h0 : k0 = k
      · subst h0
        rw [addAmount, if_pos rfl, amountOf_cons, amountOf_cons]
        by_cases h : k0 = k' <;> simp [h] <;> ring
      · rw [addAmount, if_neg h0, amountOf_cons, amountOf_cons, ih]
        ring

theorem amountOf_foldAdd (b : List (String × ℚ)) (acc : List (String × ℚ)) (k : String) :
    amountOf (b.foldl (fun a p => addAmount a p.1 p.2) acc) k =
      amountOf acc k + amountOf b k := by
  induction b generalizing acc with
  | nil => simp [amountOf]
  | cons p rest ih =>
      obtain ⟨k0, v0⟩ := p
      rw [List.foldl_cons, ih, amountOf_addAmount, amountOf_cons]
      by_cases h : k0 = k <;> simp [h] <;> ring

theorem amountOf_merged (aggs : List DRow) (acc : List (String × ℚ)) (k : String) :
    amountOf (aggs.foldl
        (fun acc r => r.vals.component_breakdown.foldl (fun a p => addAmount a p.1 p.2) acc)
        acc) k =
      amountOf acc k + (aggs.map (fun r => amountOf r.vals.component_breakdown k)).sum := by
  induction aggs generalizing acc with
  | nil => simp
  | cons r rest ih =>
      rw [List.foldl_cons, ih, amountOf_foldAdd]
      simp only [List.map_cons, List.sum_cons]
      ring

/-- **C4 (amended)** — Monthly aggregation from daily aggregates.  For every
device and month with at least one matching `DailyAggregate` row:
`total_energy_kwh` and `total_cost` are the sums over the month's rows (exact
equality in the rational model, hence within any relative tolerance),
`avg_daily_energy_kwh = total / row count`, `peak_power_kw` is the maximum of
the daily peaks, `component_breakdown` is the key-wise sum of the daily
breakdowns, `total_units_produced` sums the truthy daily units, and
`data_completeness = row count / calendar days in month × 100`.  Efficiency
is `total energy / total units` only when *both* the unit total and the
energy total are positive; it is `None` otherwise — in particular it is
`None` even when production data exists but the energy total is not
positive. -/
theorem claim4_amended (table : List DRow) (dev : ℕ) (monthStart monthEnd : ℤ)
    (hne : monthAggs table dev monthStart monthEnd ≠ []) :
    ∃ m, monthlyFromDaily table dev monthStart monthEnd = some m ∧
      m.total_energy_kwh =
        ((monthAggs table dev monthStart monthEnd).map (fun r => r.vals.total_energy_kwh)).sum ∧
      m.total_cost =
        ((monthAggs table dev monthStart monthEnd).map (fun r => r.vals.total_cost)).sum ∧
      m.avg_daily_energy_kwh =
        m.total_energy_kwh / ((monthAggs table dev monthStart monthEnd).length : ℚ) ∧
      (∀ a ∈ monthAggs table dev monthStart monthEnd, a.vals.peak_power_kw ≤ m.peak_power_kw) ∧
      (∃ a ∈ monthAggs table dev monthStart monthEnd, m.peak_power_kw = a.vals.peak_power_kw) ∧
      (∀ k, amountOf m.component_breakdown k =
        ((monthAggs table dev monthStart monthEnd).map
          (fun r => amountOf r.vals.component_breakdown k)).sum) ∧
      m.total_units_produced =
        ((monthAggs table dev monthStart monthEnd).filterMap
          (fun r => truthyUnits r.vals.units_produced)).sum ∧
      (0 < m.total_units_produced ∧ 0 < m.total_energy_kwh →
        m.efficiency_kwh_per_unit =
          some (m.total_energy_kwh / (m.total_units_produced : ℚ))) ∧
      (¬ (0 < m.total_units_produced ∧ 0 < m.total_energy_kwh) →
        m.efficiency_kwh_per_unit = none) ∧
      m.data_completeness =
        ((monthAggs table dev monthStart monthEnd).length : ℚ) /
          ((monthEnd - monthStart + 1 : ℤ) : ℚ) * 100 := by
  refine ⟨monthlyVals (monthAggs table dev monthStart monthEnd) (monthEnd - monthStart + 1),
    ?_, rfl, rfl, rfl, ?_, ?_, ?_, rfl, ?_, ?_, rfl⟩
  · simp only [monthlyFromDaily]
    rw [if_neg (by simpa [List.isEmpty_iff] using hne)]
  · intro a ha
    cases haggs : monthAggs table dev monthStart monthEnd with
    | nil => rw [haggs] at ha; simp at ha
    | cons a0 arest =>
        rw [haggs] at ha
        simp only [monthlyVals, List.map_cons]
        apply le_foldl_max
        rcases List.mem_cons.mp ha with rfl | ha'
        · exact List.mem_cons_self _ _
        · exact List.mem_cons_of_mem _ (List.mem_map_of_mem _ ha')
  · cases haggs : monthAggs table dev monthStart monthEnd with
    | nil => exact absurd haggs hne
    | cons a0 arest =>
        have hmem := foldl_max_mem a0.vals.peak_power_kw
          (arest.map (fun r => r.vals.peak_power_kw))
        have hpk : (monthlyVals (a0 :: arest) (monthEnd - monthStart + 1)).peak_power_kw =
            (arest.map (fun r => r.vals.peak_power_kw)).foldl max a0.vals.peak_power_kw := rfl
        rcases List.mem_cons.mp hmem with h | h
        · exact ⟨a0, List.mem_cons_self _ _, by rw [hpk, h]⟩
        · obtain ⟨a, hamem, haeq⟩ := List.mem_map.mp h
          exact ⟨a, List.mem_cons_of_mem _ hamem, by rw [hpk, ← haeq]⟩
  · intro k
    show amountOf ((monthAggs table dev monthStart monthEnd).foldl
        (fun acc r => r.vals.component_breakdown.foldl (fun a p => addAmount a p.1 p.2) acc)
        []) k = _
    rw [amountOf_merged]
    simp [amountOf]
  · intro hpos
    exact if_pos hpos
  · intro hneg
    exact if_neg hneg

/-- Counterexample to C4 as stated: a January with one `DailyAggregate` row
having `total_energy_kwh = 0` and `units_produced = 5` *does* have production
data, yet the monthly efficiency is `None` rather than `0/5 = 0` — the code
also requires `total_energy > 0`. -/
theorem claim4_counterexample :
    ∃ m, monthlyFromDaily [⟨1, 1, false, ⟨0, 0, 0, [], some 5, none, 0⟩⟩] 1 1 31 = some m ∧
      m.total_units_produced = 5 ∧ m.total_energy_kwh = 0 ∧
      m.efficiency_kwh_per_unit = none := by
  refine ⟨monthlyVals (monthAggs [⟨1, 1, false, ⟨0, 0, 0, [], some 5, none, 0⟩⟩] 1 1 31) 31,
    ?_, ?_, ?_, ?_⟩
  · simp only [monthlyFromDaily]
    norm_num [monthAggs, List.filter]
  · norm_num [monthlyVals, monthAggs, List.filter, truthyUnits, List.filterMap_cons]
  · norm_num [monthlyVals, monthAggs, List.filter]
  · norm_num [monthlyVals, monthAggs, List.filter, truthyUnits, List.filterMap_cons]

/-- Witness for C4: a month of two daily rows; the monthly totals are the
sums over the filtered rows and completeness is `count/days × 100`. -/
theorem claim4_witness :
    ∃ m, monthlyFromDaily
        [⟨1, 1, false, ⟨10, 0, 5, [("lights", 4)], some 2, some 5, 3 / 2⟩⟩,
          ⟨1, 2, false, ⟨12, 0, 7, [("lights", 6)], some 3, some 4, 9 / 5⟩⟩] 1 1 31 = some m ∧
      m.total_energy_kwh =
        ((monthAggs [⟨1, 1, false, ⟨10, 0, 5, [("lights", 4)], some 2, some 5, 3 / 2⟩⟩,
            ⟨1, 2, false, ⟨12, 0, 7, [("lights", 6)], some 3, some 4, 9 / 5⟩⟩] 1 1 31).map
          (fun r => r.vals.total_energy_kwh)).sum ∧
      m.data_completeness =
        ((monthAggs [⟨1, 1, false, ⟨10, 0, 5, [("lights", 4)], some 2, some 5, 3 / 2⟩⟩,
            ⟨1, 2, false, ⟨12, 0, 7, [("lights", 6)], some 3, some 4, 9 / 5⟩⟩] 1 1 31).length : ℚ) /
          ((31 - 1 + 1 : ℤ) : ℚ) * 100 := by
  obtain ⟨m, hsome, h1, _, _, _, _, _, _, _, _, h11⟩ :=
    claim4_amended
      [⟨1, 1, false, ⟨10, 0, 5, [("lights", 4)], some 2, some 5, 3 / 2⟩⟩,
        ⟨1, 2, false, ⟨12, 0, 7, [("lights", 6)], some 3, some 4, 9 / 5⟩⟩] 1 1 31
      (by simp [monthAggs, List.filter])
  exact ⟨m, hsome, h1, h11⟩

theorem leftmostMin_eq_none {α : Type} (key : α → ℚ) (l : List α) :
    leftmostMin key l = none ↔ l = [] := by
  cases l with
  | nil => simp [leftmostMin]
  | cons x xs =>
      simp only [leftmostMin]
      constructor
      · intro h
        cases hr : leftmostMin key xs <;> rw [hr] at h
        · exact absurd h (by simp)
        · rename_i m
          by_cases hk : key x ≤ key m <;> simp [hk] at h
      · intro h; exact absurd h (by simp)

theorem leftmostMin_mem {α : Type} {key : α → ℚ} :
    ∀ {l : List α} {m : α}, leftmostMin key l = some m → m ∈ l := by
  intro l
  induction l with
  | nil => intro m h; simp [leftmostMin] at h
  | cons x xs ih =>
      intro m h
      simp only [leftmostMin] at h
      cases hr : leftmostMin key xs <;> rw [hr] at h
      · rw [Option.some_inj] at h; simp [h.symm]
      · rename_i m'
        by_cases hk : key x ≤ key m' <;> simp only [hk, if_pos, if_neg, if_true, if_false] at h
        · rw [Option.some_inj] at h; simp [h.symm]
        · rw [Option.some_inj] at h
          subst h
          exact List.mem_cons_of_mem _ (ih hr)

theorem leftmostMin_le {α : Type} {key : α → ℚ} :
    ∀ {l : List α} {m : α}, leftmostMin key l = some m → ∀ x ∈ l, key m ≤ key x := by
  intro l
  induction l with
  | nil => intro m h; simp [leftmostMin] at h
  | cons a xs ih =>
      intro m h x hx
      simp only [leftmostMin] at h
      cases hr : leftmostMin key xs <;> rw [hr] at h
      · rw [Option.some_inj] at h
        subst h
        have hxe : xs = [] := (leftmostMin_eq_none key xs).mp hr
        subst hxe
        rw [List.mem_singleton] at hx
        simp [hx]
      · rename_i m'
        rcases List.mem_cons.mp hx with rfl | hx'
        · by_cases hk : key x ≤ key m' <;>
            simp only [hk, if_pos, if_neg, if_true, if_false] at h <;>
            rw [Option.some_inj] at h
          · simp [h.symm]
          · subst h; linarith [not_le.mp hk]
        · by_cases hk : key a ≤ key m' <;>
            simp only [hk, if_pos, if_neg, if_true, if_false] at h <;>
            rw [Option.some_inj] at h <;> subst h
          · exact le_trans hk (ih hr x hx')
          · exact ih hr x hx'

theorem leftmostMin_first_date :
    ∀ {l : List DRow} {m : DRow},
      l.Pairwise (fun a b => a.date < b.date) → leftmostMin effKey l = some m →
      ∀ x ∈ l, effKey x = effKey m → m.date ≤ x.date := by
  intro l
  induction l with
  | nil => intro m _ h; simp [leftmostMin] at h
  | cons a xs ih =>
      intro m hpw h x hx hkey
      rw [List.pairwise_cons] at hpw
      simp only [leftmostMin] at h
      cases hr : leftmostMin effKey xs <;> rw [hr] at h
      · rw [Option.some_inj] at h
        subst h
        have hxe : xs = [] := (leftmostMin_eq_none effKey xs).mp hr
        subst hxe
        rw [List.mem_singleton] at hx
        simp [hx]
      · rename_i m'
        by_cases hk : effKey a ≤ effKey m' <;>
          simp only [hk, if_pos, if_neg, if_true, if_false] at h <;>
          rw [Option.some_inj] at h <;> subst h
        · rcases List.mem_cons.mp hx with rfl | hx'
          · exact le_refl _
          · exact le_of_lt (hpw.1 x hx')
        · rcases List.mem_cons.mp hx with rfl | hx'
          · exfalso
            exact hk (le_of_eq hkey)
          · exact ih hpw.2 hr x hx' hkey

theorem insertionSort_head_eq_leftmostMin {α : Type} (key : α → ℚ) (l : List α) :
    (l.insertionSort (fun a b => key a ≤ key b)).head? = leftmostMin key l := by
  induction l with
  | nil => rfl
  | cons a rest ih =>
      rw [List.insertionSort]
      cases hs : rest.insertionSort (fun a b => key a ≤ key b) with
      | nil =>
          have hre : rest = [] := by
            have hperm := List.perm_insertionSort (fun a b : α => key a ≤ key b) rest
            rw [hs] at hperm
            exact hperm.symm.eq_nil
          subst hre
          rfl
      | cons b t =>
          rw [hs] at ih
          simp only [leftmostMin, ← ih]
          simp only [List.head?_cons]
          rw [List.orderedInsert]
          by_cases hk : key a ≤ key b <;> simp [hk]

/-- **C7 (amended)** — `best_day` returns the minimum positive efficiency in
range; the tie-break is the *stored order* of tying rows (the model's stable
sort), which coincides with the earliest date exactly when the stored rows
are in ascending date order.  Under that ordering hypothesis: the returned
value is minimal among qualifying rows, `period_start = period_end =` the
returned row's date, `days_used` is the qualifying row count, and every tying
row has a later-or-equal date. -/
theorem claim7_amended (table : List DRow) (dev : Option ℕ) (startD endD : ℤ)
    (hsort : table.Pairwise (fun a b => a.date < b.date))
    (hne : table.filter (qualifies dev startD endD) ≠ []) :
    ∃ r, bestDay table dev startD endD =
        some (effKey r, r.date, r.date, (table.filter (qualifies dev startD endD)).length) ∧
      r ∈ table.filter (qualifies dev startD endD) ∧
      (∀ x ∈ table.filter (qualifies dev startD endD), effKey r ≤ effKey x) ∧
      (∀ x ∈ table.filter (qualifies dev startD endD),
        effKey x = effKey r → r.date ≤ x.date) := by
  have hqsort : (table.filter (qualifies dev startD endD)).Pairwise
      (fun a b => a.date < b.date) :=
    hsort.sublist (List.filter_sublist _)
  cases hlm : leftmostMin effKey (table.filter (qualifies dev startD endD)) with
  | none => exact absurd ((leftmostMin_eq_none _ _).mp hlm) hne
  | some r =>
      refine ⟨r, ?_, leftmostMin_mem hlm, fun x hx => leftmostMin_le hlm x hx,
        fun x hx he => leftmostMin_first_date hqsort hlm x hx he⟩
      simp only [bestDay]
      rw [if_neg (by simpa [List.isEmpty_iff] using hne)]
      rw [insertionSort_head_eq_leftmostMin, hlm]
      rfl

/-- Counterexample to C7 as stated: two rows tie at efficiency 3 but are
stored newest-first (dates 5 then 2); `order_by('efficiency').first()` keeps
the stored order on ties and returns date 5, not the earliest tying date 2. -/
theorem claim7_counterexample :
    bestDay [⟨1, 5, false, ⟨0, 0, 0, [], none, some 3, 0⟩⟩,
      ⟨1, 2, false, ⟨0, 0, 0, [], none, some 3, 0⟩⟩] none 0 30 = some (3, 5, 5, 2) ∧
    (2 : ℤ) < 5 := by
  constructor
  · norm_num [bestDay, qualifies, effKey, List.insertionSort, List.orderedInsert, List.filter]
  · norm_num

/-- Witness for C7 on the spec's example: daily efficiencies
`[5, 3, 4, 3, 6]` on dates 1..5 (stored in date order) give benchmark value
3 at the first occurrence, date 2. -/
theorem claim7_witness :
    bestDay [⟨1, 1, false, ⟨0, 0, 0, [], none, some 5, 0⟩⟩,
        ⟨1, 2, false, ⟨0, 0, 0, [], none, some 3, 0⟩⟩,
        ⟨1, 3, false, ⟨0, 0, 0, [], none, some 4, 0⟩⟩,
        ⟨1, 4, false, ⟨0, 0, 0, [], none, some 3, 0⟩⟩,
        ⟨1, 5, false, ⟨0, 0, 0, [], none, some 6, 0⟩⟩] none 0 30 = some (3, 2, 2, 5) ∧
    (∃ r, bestDay [⟨1, 1, false, ⟨0, 0, 0, [], none, some 5, 0⟩⟩,
        ⟨1, 2, false, ⟨0, 0, 0, [], none, some 3, 0⟩⟩,
        ⟨1, 3, false, ⟨0, 0, 0, [], none, some 4, 0⟩⟩,
        ⟨1, 4, false, ⟨0, 0, 0, [], none, some 3, 0⟩⟩,
        ⟨1, 5, false, ⟨0, 0, 0, [], none, some 6, 0⟩⟩] none 0 30 =
          some (effKey r, r.date, r.date,
            ([⟨1, 1, false, ⟨0, 0, 0, [], none, some 5, 0⟩⟩,
              ⟨1, 2, false, ⟨0, 0, 0, [], none, some 3, 0⟩⟩,
              ⟨1, 3, false, ⟨0, 0, 0, [], none, some 4, 0⟩⟩,
              ⟨1, 4, false, ⟨0, 0, 0, [], none, some 3, 0⟩⟩,
              ⟨1, 5, false, ⟨0, 0, 0, [], none, some 6, 0⟩⟩].filter
                (qualifies none 0 30)).length) ∧
      (∀ x ∈ [⟨1, 1, false, ⟨0, 0, 0, [], none, some 5, 0⟩⟩,
          ⟨1, 2, false, ⟨0, 0, 0, [], none, some 3, 0⟩⟩,
          ⟨1, 3, false, ⟨0, 0, 0, [], none, some 4, 0⟩⟩,
          ⟨1, 4, false, ⟨0, 0, 0, [], none, some 3, 0⟩⟩,
          ⟨1, 5, false, ⟨0, 0, 0, [], none, some 6, 0⟩⟩].filter (qualifies none 0 30),
        effKey x = effKey r → r.date ≤ x.date)) := by
  constructor
  · norm_num [bestDay, qualifies, effKey, List.insertionSort, List.orderedInsert, List.filter]
  · obtain ⟨r, h1, _, _, h4⟩ :=
      claim7_amended [⟨1, 1, false, ⟨0, 0, 0, [], none, some 5, 0⟩⟩,
        ⟨1, 2, false, ⟨0, 0, 0, [], none, some 3, 0⟩⟩,
        ⟨1, 3, false, ⟨0, 0, 0, [], none, some 4, 0⟩⟩,
        ⟨1, 4, false, ⟨0, 0, 0, [], none, some 3, 0⟩⟩,
        ⟨1, 5, false, ⟨0, 0, 0, [], none, some 6, 0⟩⟩] none 0 30
        (by decide) (by simp [qualifies, List.filter])
    exact ⟨r, h1, h4⟩

theorem minByFst_mem (w : ℚ × ℤ × ℤ) (ws : List (ℚ × ℤ × ℤ)) :
    minByFst w ws ∈ w :: ws := by
  induction ws generalizing w with
  | nil => simp [minByFst]
  | cons y ys ih =>
      simp only [minByFst, List.foldl_cons]
      rcases List.mem_cons.mp (ih (if y.1 < w.1 then y else w)) with h | h
      · rw [minByFst] at h
        rw [h]
        by_cases hc : y.1 < w.1 <;> simp [hc]
      · exact List.mem_cons_of_mem _ (List.mem_cons_of_mem _ h)

theorem minByFst_le (w : ℚ × ℤ × ℤ) (ws : List (ℚ × ℤ × ℤ)) :
    ∀ y ∈ w :: ws, (minByFst w ws).1 ≤ y.1 := by
  induction ws generalizing w with
  | nil => intro y hy; rw [List.mem_singleton] at hy; simp [minByFst, hy]
  | cons z zs ih =>
      intro y hy
      simp only [minByFst, List.foldl_cons]
      have hstep : (if z.1 < w.1 then z else w).1 ≤ w.1 ∧
          (if z.1 < w.1 then z else w).1 ≤ z.1 := by
        constructor
        · split
          · next hc => exact le_of_lt hc
          · exact le_refl _
        · split
          · exact le_refl _
          · next hc => exact not_lt.mp hc
      have hres := ih (if z.1 < w.1 then z else w)
      have hhead := hres _ (List.mem_cons_self _ _)
      rw [minByFst] at hhead
      rcases List.mem_cons.mp hy with rfl | hy'
      · exact le_trans hhead hstep.1
      · rcases List.mem_cons.mp hy' with rfl | hy''
        · exact le_trans hhead hstep.2
        · have := hres y (List.mem_cons_of_mem _ hy'')
          rw [minByFst] at this
          exact this

theorem length_dailyDesc (table : List DRow) (dev : Option ℕ) (startD endD : ℤ) :
    (dailyDesc table dev startD endD).length =
      (table.filter (qualifies dev startD endD)).length := by
  rw [dailyDesc, List.length_map]
  exact (List.perm_insertionSort _ _).length_eq

theorem weekWindows_eq_nil {daily : List (ℤ × ℚ)} :
    weekWindows daily = [] ↔ daily.length < 7 := by
  rw [weekWindows]
  rw [List.map_eq_nil_iff, List.range_eq_nil]
  omega

/-- **C8 (amended)** — `best_week` slides a window of 7 consecutive *rows* of
the date-descending daily list, regardless of date contiguity (windows may
span arbitrary gaps of missing days; nothing is gap-filled or excluded), and
returns the first window of minimal average together with that window's first
(newest) and last (oldest) row dates.  It returns `None` exactly when fewer
than 7 qualifying rows exist. -/
theorem claim8_amended (table : List DRow) (dev : Option ℕ) (startD endD : ℤ) :
    (bestWeek table dev startD endD = none ↔
      (table.filter (qualifies dev startD endD)).length < 7) ∧
    (∀ v s e, bestWeek table dev startD endD = some (v, s, e) →
      (v, s, e) ∈ weekWindows (dailyDesc table dev startD endD) ∧
      ∀ w ∈ weekWindows (dailyDesc table dev startD endD), v ≤ w.1) := by
  constructor
  · by_cases hqe : (table.filter (qualifies dev startD endD)).isEmpty
    · simp only [bestWeek, hqe, if_pos, if_true]
      rw [List.isEmpty_iff] at hqe
      simp [hqe]
    · simp only [bestWeek, hqe, Bool.false_eq_true, if_false]
      cases hw : weekWindows (dailyDesc table dev startD endD) with
      | nil =>
          have := weekWindows_eq_nil.mp hw
          rw [length_dailyDesc] at this
          simp [this]
      | cons w ws =>
          have : ¬ (dailyDesc table dev startD endD).length < 7 := by
            intro hlt
            rw [← weekWindows_eq_nil] at hlt
            rw [hw] at hlt
            exact absurd hlt (by simp)
          rw [length_dailyDesc] at this
          simp [this]
  · intro v s e hsome
    by_cases hqe : (table.filter (qualifies dev startD endD)).isEmpty
    · simp only [bestWeek, hqe, if_pos, if_true] at hsome
      exact absurd hsome (by simp)
    · simp only [bestWeek, hqe, Bool.false_eq_true, if_false] at hsome
      cases hw : weekWindows (dailyDesc table dev startD endD) with
      | nil => rw [hw] at hsome; exact absurd hsome (by simp)
      | cons w ws =>
          rw [hw] at hsome
          rw [Option.some_inj] at hsome
          refine ⟨?_, ?_⟩
          · rw [← hsome]; exact minByFst_mem w ws
          · intro w' hw'
            have hle := minByFst_le w ws w' hw'
            rw [hsome] at hle
            exact hle

/-- Counterexample to C8 as stated: seven qualifying rows on dates
1–6 and 20 (all efficiency 1).  The only 7-row window spans the 13-day gap
and the returned period is `[20, 1]` — start after end, no 7-consecutive-day
window at all — instead of the window being skipped/excluded. -/
theorem claim8_counterexample :
    ∃ v s e, bestWeek [⟨1, 1, false, ⟨0, 0, 0, [], none, some 1, 0⟩⟩,
        ⟨1, 2, false, ⟨0, 0, 0, [], none, some 1, 0⟩⟩,
        ⟨1, 3, false, ⟨0, 0, 0, [], none, some 1, 0⟩⟩,
        ⟨1, 4, false, ⟨0, 0, 0, [], none, some 1, 0⟩⟩,
        ⟨1, 5, false, ⟨0, 0, 0, [], none, some 1, 0⟩⟩,
        ⟨1, 6, false, ⟨0, 0, 0, [], none, some 1, 0⟩⟩,
        ⟨1, 20, false, ⟨0, 0, 0, [], none, some 1, 0⟩⟩] none 0 30 = some (v, s, e) ∧
      ¬ (s ≤ e ∧ e - s = 6) := by
  refine ⟨1, 20, 1, ?_, by norm_num⟩
  norm_num [bestWeek, dailyDesc, weekWindows, minByFst, qualifies, effKey,
    List.insertionSort, List.orderedInsert, List.filter, List.range, List.range.loop]

/-- Witness for C8: eight contiguous daily rows (dates 1..8, efficiency 4)
whose best week is the newest window `(4, 8, 2)`. -/
theorem claim8_witness :
    ((4 : ℚ), (8 : ℤ), (2 : ℤ)) ∈ weekWindows (dailyDesc
      [⟨1, 1, false, ⟨0, 0, 0, [], none, some 4, 0⟩⟩,
        ⟨1, 2, false, ⟨0, 0, 0, [], none, some 4, 0⟩⟩,
        ⟨1, 3, false, ⟨0, 0, 0, [], none, some 4, 0⟩⟩,
        ⟨1, 4, false, ⟨0, 0, 0, [], none, some 4, 0⟩⟩,
        ⟨1, 5, false, ⟨0, 0, 0, [], none, some 4, 0⟩⟩,
        ⟨1, 6, false, ⟨0, 0, 0, [], none, some 4, 0⟩⟩,
        ⟨1, 7, false, ⟨0, 0, 0, [], none, some 4, 0⟩⟩,
        ⟨1, 8, false, ⟨0, 0, 0, [], none, some 4, 0⟩⟩] none 0 30) ∧
    ∀ w ∈ weekWindows (dailyDesc
      [⟨1, 1, false, ⟨0, 0, 0, [], none, some 4, 0⟩⟩,
        ⟨1, 2, false, ⟨0, 0, 0, [], none, some 4, 0⟩⟩,
        ⟨1, 3, false, ⟨0, 0, 0, [], none, some 4, 0⟩⟩,
        ⟨1, 4, false, ⟨0, 0, 0, [], none, some 4, 0⟩⟩,
        ⟨1, 5, false, ⟨0, 0, 0, [], none, some 4, 0⟩⟩,
        ⟨1, 6, false, ⟨0, 0, 0, [], none, some 4, 0⟩⟩,
        ⟨1, 7, false, ⟨0, 0, 0, [], none, some 4, 0⟩⟩,
        ⟨1, 8, false, ⟨0, 0, 0, [], none, some 4, 0⟩⟩] none 0 30), (4 : ℚ) ≤ w.1 :=
  (claim8_amended [⟨1, 1, false, ⟨0, 0, 0, [], none, some 4, 0⟩⟩,
      ⟨1, 2, false, ⟨0, 0, 0, [], none, some 4, 0⟩⟩,
      ⟨1, 3, false, ⟨0, 0, 0, [], none, some 4, 0⟩⟩,
      ⟨1, 4, false, ⟨0, 0, 0, [], none, some 4, 0⟩⟩,
      ⟨1, 5, false, ⟨0, 0, 0, [], none, some 4, 0⟩⟩,
      ⟨1, 6, false, ⟨0, 0, 0, [], none, some 4, 0⟩⟩,
      ⟨1, 7, false, ⟨0, 0, 0, [], none, some 4, 0⟩⟩,
      ⟨1, 8, false, ⟨0, 0, 0, [], none, some 4, 0⟩⟩] none 0 30).2 4 8 2
    (by norm_num [bestWeek, dailyDesc, weekWindows, minByFst, qualifies, effKey,
      List.insertionSort, List.orderedInsert, List.filter, List.range, List.range.loop])

theorem rawQuery_eq (now start stop : ℤ) :
    rawQuery now start stop =
      if max start (cutoff5 now) < min stop now
      then [(Tier.raw, max start (cutoff5 now), min stop now)] else [] := by
  simp only [rawQuery]
  split_ifs with h1 h2 <;> first | rfl | (exfalso; omega)

theorem oneMQuery_eq (now start stop : ℤ) :
    oneMQuery now start stop =
      if max start (cutoff35 now) < min stop (cutoff5 now)
      then [(Tier.oneM, max start (cutoff35 now), min stop (cutoff5 now))] else [] := by
  simp only [oneMQuery]
  split_ifs with h1 h2 <;> first | rfl | (exfalso; omega)

theorem fiveMQuery_eq (now start stop : ℤ) :
    fiveMQuery now start stop =
      if max start (cutoff215 now) < min stop (cutoff35 now)
      then [(Tier.fiveM, max start (cutoff215 now), min stop (cutoff35 now))] else [] := by
  simp only [fiveMQuery]
  split_ifs with h1 h2 <;> first | rfl | (exfalso; omega)

theorem mem_ifSingleton {α : Type} {c : Prop} [Decidable c] {a b : α} :
    (a ∈ if c then [b] else []) ↔ c ∧ a = b := by
  split_ifs with h <;> simp [h]

theorem countP_ifSingleton {α : Type} (p : α → Bool) (c : Prop) [Decidable c] (b : α) :
    (if c then [b] else []).countP p = if c ∧ p b = true then 1 else 0 := by
  by_cases hc : c <;> by_cases hp : p b = true <;>
    simp [hc, hp, List.countP_cons]

theorem cutoffs_ordered (now : ℤ) :
    cutoff215 now < cutoff35 now ∧ cutoff35 now < cutoff5 now ∧ cutoff5 now < now := by
  unfold cutoff215 cutoff35 cutoff5
  omega

theorem buildQueries_normalized (now start stop : ℤ) :
    buildQueries now start stop =
      (if max start (cutoff5 now) < min stop now
        then [(Tier.raw, max start (cutoff5 now), min stop now)] else []) ++
      (if max start (cutoff35 now) < min stop (cutoff5 now)
        then [(Tier.oneM, max start (cutoff35 now), min stop (cutoff5 now))] else []) ++
      (if max start (cutoff215 now) < min stop (cutoff35 now)
        then [(Tier.fiveM, max start (cutoff215 now), min stop (cutoff35 now))] else []) ++
      (if start < cutoff215 now
        then [(Tier.oneH, start, min stop (cutoff215 now))] else []) := by
  rw [buildQueries, rawQuery_eq, oneMQuery_eq, fiveMQuery_eq, oneHQuery]

theorem countP_tag_le_one (now start stop : ℤ) (tr : Tier) :
    (buildQueries now start stop).countP (fun q => q.1 == tr) ≤ 1 := by
  rw [buildQueries_normalized]
  simp only [List.countP_append, countP_ifSingleton, beq_iff_eq]
  cases tr <;> simp <;> split_ifs <;> simp

theorem buildQueries_ne_nil (now start stop : ℤ) (h : start < stop) (hnow : start < now) :
    buildQueries now start stop ≠ [] := by
  obtain ⟨hco1, hco2, hco3⟩ := cutoffs_ordered now
  rw [buildQueries_normalized]
  intro hnil
  rw [List.append_eq_nil, List.append_eq_nil, List.append_eq_nil] at hnil
  obtain ⟨⟨⟨e1, e2⟩, e3⟩, e4⟩ := hnil
  split_ifs at e1 e2 e3 e4 <;> simp_all <;> omega

theorem countContaining_emitted (now start stop t : ℤ) (h : start < stop)
    (hnow : start < now) (ht1 : start ≤ t) (ht2 : t < stop) :
    countContaining (emittedQueries now start stop) t = if t < now then 1 else 0 := by
  obtain ⟨hco1, hco2, hco3⟩ := cutoffs_ordered now
  have hemit : emittedQueries now start stop = buildQueries now start stop := by
    rw [emittedQueries]
    simp only [List.isEmpty_iff, if_neg (buildQueries_ne_nil now start stop h hnow)]
  rw [hemit, countContaining, buildQueries_normalized]
  simp only [List.countP_append, countP_ifSingleton, containsT, decide_eq_true_eq]
  split_ifs <;> omega

theorem emitted_fallback (now start stop : ℤ) (hnow : now ≤ start) :
    emittedQueries now start stop = [(Tier.raw, start, stop)] := by
  obtain ⟨hco1, hco2, hco3⟩ := cutoffs_ordered now
  have hb : buildQueries now start stop = [] := by
    rw [buildQueries_normalized]
    rw [if_neg (by omega), if_neg (by omega), if_neg (by omega), if_neg (by omega)]
    rfl
  rw [emittedQueries, hb]
  rfl

/-- **C3 (amended)** — The tiered query builder, for any range with
`start < stop`: (i) every emitted tier sub-query's range is exactly the
intersection of `[start, stop)` with that tier's validity window; (ii) a
tier gets a sub-query iff its window intersects the range, and never more
than one; (iii) when `start < now`, every timestamp of `[start, stop)`
*before `now`* lies in exactly one emitted sub-range (pairwise disjoint, no
gap and no duplicate at the 5/35/215-day boundaries) — timestamps at or
after `now` are covered by no tier, so the full range is covered exactly
when `stop ≤ now`; (iv) when the whole range lies at or after `now` (the
only way zero tier windows intersect it), a single fallback raw query over
the full `[start, stop)` is emitted; (v) the union of the sub-query results
is sorted by time ascending. -/
theorem claim3_amended (now start stop : ℤ) (h : start < stop) :
    (∀ tr lo hi, (tr, lo, hi) ∈ buildQueries now start stop →
      ∀ t : ℤ, (lo ≤ t ∧ t < hi) ↔ (start ≤ t ∧ t < stop ∧ inWindow now tr t)) ∧
    (∀ tr : Tier, (∃ lo hi, (tr, lo, hi) ∈ buildQueries now start stop) ↔
      (∃ t : ℤ, start ≤ t ∧ t < stop ∧ inWindow now tr t)) ∧
    (∀ tr : Tier, (buildQueries now start stop).countP (fun q => q.1 == tr) ≤ 1) ∧
    (start < now → ∀ t : ℤ, start ≤ t → t < stop →
      countContaining (emittedQueries now start stop) t = if t < now then 1 else 0) ∧
    (now ≤ start → emittedQueries now start stop = [(Tier.raw, start, stop)]) ∧
    (∀ data : Tier → List (ℤ × ℚ),
      List.Sorted timeLE (evalQueries data (emittedQueries now start stop))) := by
  obtain ⟨hco1, hco2, hco3⟩ := cutoffs_ordered now
  have hbq := buildQueries_normalized now start stop
  refine ⟨?_, ?_, fun tr => countP_tag_le_one now start stop tr,
    fun hnow t ht1 ht2 => countContaining_emitted now start stop t h hnow ht1 ht2,
    fun hnow => emitted_fallback now start stop hnow, ?_⟩
  · intro tr lo hi hmem t
    rw [hbq] at hmem
    simp only [List.mem_append, mem_ifSingleton, Prod.mk.injEq] at hmem
    rcases hmem with ((⟨hc, htag, hlo, hhi⟩ | ⟨hc, htag, hlo, hhi⟩) |
        ⟨hc, htag, hlo, hhi⟩) | ⟨hc, htag, hlo, hhi⟩ <;>
      subst hlo <;> subst hhi <;> subst htag <;> simp only [inWindow] <;> omega
  · intro tr
    constructor
    · rintro ⟨lo, hi, hmem⟩
      rw [hbq] at hmem
      simp only [List.mem_append, mem_ifSingleton, Prod.mk.injEq] at hmem
      rcases hmem with ((⟨hc, htag, hlo, hhi⟩ | ⟨hc, htag, hlo, hhi⟩) |
          ⟨hc, htag, hlo, hhi⟩) | ⟨hc, htag, hlo, hhi⟩ <;>
        subst htag <;> simp only [inWindow]
      · exact ⟨max start (cutoff5 now), by omega⟩
      · exact ⟨max start (cutoff35 now), by omega⟩
      · exact ⟨max start (cutoff215 now), by omega⟩
      · exact ⟨start, by omega⟩
    · rintro ⟨t, ht1, ht2, hw⟩
      cases tr <;> simp only [inWindow] at hw
      · refine ⟨max start (cutoff5 now), min stop now, ?_⟩
        rw [hbq, if_pos (show max start (cutoff5 now) < min stop now by omega)]
        exact List.mem_append_left _ (List.mem_append_left _
          (List.mem_append_left _ (List.mem_singleton_self _)))
      · refine ⟨max start (cutoff35 now), min stop (cutoff5 now), ?_⟩
        rw [hbq, if_pos (show max start (cutoff35 now) < min stop (cutoff5 now) by omega)]
        exact List.mem_append_left _ (List.mem_append_left _
          (List.mem_append_right _ (List.mem_singleton_self _)))
      · refine ⟨max start (cutoff215 now), min stop (cutoff35 now), ?_⟩
        rw [hbq, if_pos (show max start (cutoff215 now) < min stop (cutoff35 now) by omega)]
        exact List.mem_append_left _
          (List.mem_append_right _ (List.mem_singleton_self _))
      · refine ⟨start, min stop (cutoff215 now), ?_⟩
        rw [hbq, if_pos (show start < cutoff215 now by omega)]
        exact List.mem_append_right _ (List.mem_singleton_self _)
  · intro data
    simp only [evalQueries]
    exact @List.sorted_insertionSort _ timeLE _ _ _
      ((emittedQueries now start stop).flatMap (selectRows data))

/-- Counterexample to C3 as stated: for `now = 0` and the range
`[-86400, 86400)` (which satisfies `start < end`), the builder emits only the
raw sub-query clipped to `now`, so the in-range timestamp `0` is covered by
no emitted sub-range — the union does not cover the requested range when it
extends past `now`. -/
theorem claim3_counterexample :
    (-86400 : ℤ) < 86400 ∧ (-86400 : ℤ) ≤ 0 ∧ (0 : ℤ) < 86400 ∧
    countContaining (emittedQueries 0 (-86400) 86400) 0 = 0 := by
  refine ⟨by norm_num, by norm_num, by norm_num, by decide⟩

/-- Witness for C3: a 220-day range ending exactly at `now` (spanning all
four tier boundaries) covers each of its timestamps exactly once. -/
theorem claim3_witness :
    countContaining (emittedQueries (220 * 86400) 0 (220 * 86400)) 0 =
      if (0 : ℤ) < 220 * 86400 then 1 else 0 :=
  (claim3_amended (220 * 86400) 0 (220 * 86400) (by norm_num)).2.2.2.1 (by norm_num) 0
    le_rfl (by norm_num)

theorem pymax0_nonneg (x : Option ℚ) : 0 ≤ pymax0 x := by
  cases x <;> simp [pymax0]

theorem round2_bounds {x : ℚ} (h0 : 0 ≤ x) (h100 : x ≤ 100) :
    0 ≤ round2 x ∧ round2 x ≤ 100 := by
  have hr0 : (0 : ℤ) ≤ round (x * 100) := by
    have h := Int.floor_mono (show (0 : ℚ) + 1 / 2 ≤ x * 100 + 1 / 2 by linarith)
    rw [← round_eq, ← round_eq] at h
    simpa using h
  have hr1 : round (x * 100) ≤ 10000 := by
    have h := Int.floor_mono (show x * 100 + 1 / 2 ≤ (10000 : ℚ) + 1 / 2 by linarith)
    rw [← round_eq, ← round_eq] at h
    have h10000 : round ((10000 : ℚ)) = 10000 := by
      rw [show ((10000 : ℚ)) = ((10000 : ℤ) : ℚ) by norm_num, round_intCast]
    rw [h10000] at h
    exact h
  constructor
  · rw [round2]
    positivity
  · rw [round2, div_le_iff₀ (by norm_num : (0 : ℚ) < 100)]
    calc ((round (x * 100) : ℤ) : ℚ) ≤ ((10000 : ℤ) : ℚ) := by exact_mod_cast hr1
    _ = 100 * 100 := by norm_num

theorem consumptionFromPrev_bounds (latest prev : Option ℚ) :
    0 ≤ consumptionFromPrev latest prev ∧ consumptionFromPrev latest prev ≤ 100 := by
  cases prev with
  | none => refine ⟨by simp [consumptionFromPrev], by norm_num [consumptionFromPrev]⟩
  | some p =>
      simp only [consumptionFromPrev]
      split_ifs with hp
      · refine ⟨pymax0_nonneg _, ?_⟩
        cases latest with
        | none => simp [rsub, pymax0]
        | some l =>
            simp only [rsub, Option.map_some, pymax0]
            apply max_le (by norm_num)
            have := abs_nonneg ((l - p) / p * 100)
            linarith
      · norm_num

theorem consumptionScore_bounds (target latest prev : Option ℚ) :
    0 ≤ consumptionScore target latest prev ∧ consumptionScore target latest prev ≤ 100 := by
  cases target with
  | none => exact consumptionFromPrev_bounds latest prev
  | some t =>
      simp only [consumptionScore]
      split_ifs with ht
      · exact consumptionFromPrev_bounds latest prev
      · refine ⟨pymax0_nonneg _, ?_⟩
        cases latest with
        | none => simp [rsub, pymax0]
        | some l =>
            simp only [rsub, Option.map_some, pymax0]
            apply max_le (by norm_num)
            have habs : (0 : ℚ) ≤ |l - t| := abs_nonneg _
            have hmax : (0 : ℚ) < max t 1 := lt_of_lt_of_le one_pos (le_max_right t 1)
            have : (0 : ℚ) ≤ |l - t| / max t 1 * 100 :=
              mul_nonneg (div_nonneg habs (le_of_lt hmax)) (by norm_num)
            linarith

theorem qualityScore_bounds (rows : List (ℤ × Option ℚ)) :
    0 ≤ qualityScore rows ∧ qualityScore rows ≤ 100 := by
  cases rows with
  | nil => refine ⟨by simp [qualityScore], by norm_num [qualityScore]⟩
  | cons r0 rest =>
      simp only [qualityScore]
      split_ifs with he
      · norm_num
      · constructor
        · exact le_max_left 0 _
        · apply max_le (by norm_num)
          have hvar : (0 : ℚ) ≤
              ((((r0 :: rest).filter (fun p => p.1 ==
                  (rest.map (·.1)).foldl max r0.1)).filterMap (·.2)).map
                (fun x => (x - (((r0 :: rest).filter (fun p => p.1 ==
                  (rest.map (·.1)).foldl max r0.1)).filterMap (·.2)).sum /
                  ((((r0 :: rest).filter (fun p => p.1 ==
                  (rest.map (·.1)).foldl max r0.1)).filterMap (·.2)).length : ℚ)) ^ 2)).sum /
              ((((r0 :: rest).filter (fun p => p.1 ==
                  (rest.map (·.1)).foldl max r0.1)).filterMap (·.2)).length : ℚ) := by
            apply div_nonneg
            · apply List.sum_nonneg
              intro a ha
              obtain ⟨b, _, rfl⟩ := List.mem_map.mp ha
              exact sq_nonneg _
            · positivity
          have hmin : (0 : ℚ) ≤ min (_ * 20) 100 := le_min (by linarith) (by norm_num)
          linarith [hmin]

theorem qualityScore_eq_50 (rows : List (ℤ × Option ℚ))
    (h : latestDayVals rows = []) : qualityScore rows = 50 := by
  cases rows with
  | nil => rfl
  | cons r0 rest =>
      simp only [latestDayVals] at h
      simp only [qualityScore, h]
      rfl

/-- **C10** — Performance scores are bounded and default on missing data.
For every device row of the daily summary (arbitrary target and possibly-NaN
latest/previous kWh) and every hourly frame for the device, the returned
consumption, power-quality and overall scores all lie in `[0, 100]`, and a
device with no non-null hourly value on its latest day (in particular a
device with no hourly rows at all) gets `power_quality_score = 50.0`. -/
theorem claim10_performance_scores (target latest prev : Option ℚ)
    (rows : List (ℤ × Option ℚ)) :
    (0 ≤ (scoreRow target latest prev rows).1 ∧ (scoreRow target latest prev rows).1 ≤ 100) ∧
    (0 ≤ (scoreRow target latest prev rows).2.1 ∧
      (scoreRow target latest prev rows).2.1 ≤ 100) ∧
    (0 ≤ (scoreRow target latest prev rows).2.2 ∧
      (scoreRow target latest prev rows).2.2 ≤ 100) ∧
    (latestDayVals rows = [] → (scoreRow target latest prev rows).2.1 = 50) := by
  obtain ⟨hc0, hc1⟩ := consumptionScore_bounds target
    (match latest with
      | none => none
      | some q => if q = 0 then none else some q) prev
  obtain ⟨hq0, hq1⟩ := qualityScore_bounds rows
  simp only [scoreRow]
  refine ⟨round2_bounds hc0 hc1, round2_bounds hq0 hq1, ?_, ?_⟩
  · apply round2_bounds
    · exact le_min (by norm_num) (le_max_left 0 _)
    · exact min_le_left _ _
  · intro h
    rw [qualityScore_eq_50 rows h]
    rw [round2, show (50 : ℚ) * 100 = ((5000 : ℤ) : ℚ) by norm_num, round_intCast]
    norm_num

/-- Witness for C10: a device absent from the hourly frame (empty rows, NaN
summary entries, no target) scores `(50, 50, 50)`. -/
theorem claim10_witness :
    (0 ≤ (scoreRow none none none []).1 ∧ (scoreRow none none none []).1 ≤ 100) ∧
    (scoreRow none none none []).2.1 = 50 := by
  obtain ⟨h1, _, _, h4⟩ := claim10_performance_scores none none none []
  exact ⟨h1, h4 rfl⟩

end DemoBack
